import Mathlib

/-!
Verification of the incremental-tailing / checkpoint / classification core of
`Automated_log_analyzer/log_analyzer.py`.

Embedding conventions:
* file contents and lines are `List Char`; byte offsets are `Nat`
  (the files the analyzer reads are text; Python reads them in text mode);
* `st_mtime` timestamps (SQLite REAL) are embedded as `Int`: only their
  ordering is ever used by the code (`mtime >= old_mtime`);
* the regular expressions of `CONFIG["PATTERNS"]` are translated into an
  executable matcher (`RE`, `research`).  `re.IGNORECASE` compilation is
  embedded by case-folding: every literal character of a pattern is stored
  lower-case and `research` lowers the searched line (the character classes
  appearing in the source patterns, both `\w` and `\d` and `\s` and `.`, are
  closed under case, so this is equivalent);
* SQLite / CSV persistence is a single event-store append that can fail
  (`persistOk`), matching the spec's `appendMany -> success/failure`
  interface; `update_checkpoint` is a write to the per-source checkpoint row.
-/

/-! ## Character classes of the source regexes -/

/-- Character classes occurring in `CONFIG["PATTERNS"]`:
`\w`, `\d`, `\s` and the dot. -/
inductive CC where
  | word
  | digit
  | space
  | dot
  | ch (c : Char)
deriving DecidableEq, Repr

/-- Python semantics of the classes on the (ASCII) log text:
`\w = [A-Za-z0-9_]`, `\d = [0-9]`, `\s = [ \t\n\r\f\v]`, `.` is any char
except a newline. -/
def ccMatch : CC → Char → Bool
  | CC.word, c => c.isAlphanum || c == '_'
  | CC.digit, c => c.isDigit
  | CC.space, c => c == ' ' || c == '\t' || c == '\n' || c == '\r' || c == '\x0c' || c == '\x0b'
  | CC.dot, c => c != '\n'
  | CC.ch a, c => c == a

/-! ## Regular expressions -/

/-- The regex constructs used by the source patterns.  Groups (named or not)
do not affect whether `pat.search(line)` finds a match, so they are not
represented; `x?`, `x+` and `x\x7b2,\x7d` are derived forms. -/
inductive RE where
  | eps
  | cls (k : CC)
  | cat (a b : RE)
  | alt (a b : RE)
  | star (a : RE)
  | wb
deriving DecidableEq, Repr

def RE.size : RE → Nat
  | RE.eps => 1
  | RE.cls _ => 1
  | RE.cat a b => a.size + b.size + 1
  | RE.alt a b => a.size + b.size + 1
  | RE.star a => a.size + 1
  | RE.wb => 1

def isWordOpt : Option Char → Bool
  | none => false
  | some c => ccMatch CC.word c

def isWordHead : List Char → Bool
  | [] => false
  | c :: _ => ccMatch CC.word c

/-- Backtracking matcher.  `mtch fuel r prev s` returns the list of
`(last consumed char, remaining suffix)` pairs reachable by matching `r` at
the start of `s`; `prev` is the character just before `s` (for `\b`).
The fuel only bounds the recursion depth; `searchFuel` below always provides
enough of it. -/
def mtch : Nat → RE → Option Char → List Char → List (Option Char × List Char)
  | 0, _, _, _ => []
  | _ + 1, RE.eps, prev, s => [(prev, s)]
  | _ + 1, RE.cls k, _, s =>
    match s with
    | [] => []
    | c :: rest => if ccMatch k c then [(some c, rest)] else []
  | n + 1, RE.cat a b, prev, s =>
    (mtch n a prev s).flatMap (fun pr => mtch n b pr.1 pr.2)
  | n + 1, RE.alt a b, prev, s =>
    mtch n a prev s ++ mtch n b prev s
  | n + 1, RE.star a, prev, s =>
    (prev, s) :: (mtch n a prev s).flatMap
      (fun pr => if pr.2.length < s.length then mtch n (RE.star a) pr.1 pr.2 else [])
  | _ + 1, RE.wb, prev, s =>
    if isWordOpt prev == isWordHead s then [] else [(prev, s)]

/-- Enough fuel to fully explore a match of `r` against `s`. -/
def searchFuel (r : RE) (s : List Char) : Nat :=
  (r.size + 1) * (s.length + 2)

/-- Search: `searchFrom r prev s` asks, does `r` match starting at some position of `s`?
(`prev` is the character just before `s`.)  This is the scan that
`pat.search` performs over every start position. -/
def searchFrom (r : RE) : Option Char → List Char → Bool
  | prev, [] => !(mtch (searchFuel r []) r prev []).isEmpty
  | prev, c :: rest =>
    !(mtch (searchFuel r (c :: rest)) r prev (c :: rest)).isEmpty ||
      searchFrom r (some c) rest

def lowerLine (l : List Char) : List Char := l.map Char.toLower

/-- Embeds `pat.search(line)` for a pattern compiled with `re.IGNORECASE`:
the line is case-folded, pattern literals are stored case-folded. -/
def research (r : RE) (line : List Char) : Bool :=
  searchFrom r none (lowerLine line)

/-! ### Derived pattern forms -/

def strRE (s : String) : RE :=
  s.data.foldr (fun c r => RE.cat (RE.cls (CC.ch c)) r) RE.eps

def catsRE (l : List RE) : RE := l.foldr RE.cat RE.eps

def plusRE (a : RE) : RE := RE.cat a (RE.star a)

def optRE (a : RE) : RE := RE.alt a RE.eps

/-- Repetition `(a)\x7b2,\x7d` = `a a+`. -/
def rep2RE (a : RE) : RE := RE.cat a (plusRE a)

def wplus : RE := plusRE (RE.cls CC.word)

def dplus : RE := plusRE (RE.cls CC.digit)

def anyStar : RE := RE.star (RE.cls CC.dot)

/-- The ip regex `\d+\.\d+\.\d+\.\d+` (the bodies of the `(?P<ip>...)` groups). -/
def ipRE : RE :=
  catsRE [dplus, RE.cls (CC.ch '.'), dplus, RE.cls (CC.ch '.'), dplus,
          RE.cls (CC.ch '.'), dplus]

/-! ### The patterns of CONFIG["PATTERNS"], in source order -/

/-- Failed password for (invalid user )?\w+ from (?P<ip>...) -/
def pFL1 : RE :=
  catsRE [strRE "failed password for ", optRE (strRE "invalid user "), wplus,
          strRE " from ", ipRE]

/-- Invalid user \w+ from (?P<ip>...) -/
def pFL2 : RE :=
  catsRE [strRE "invalid user ", wplus, strRE " from ", ipRE]

/-- authentication failure;.*rhost=(?P<ip>...) -/
def pFL3 : RE :=
  catsRE [strRE "authentication failure;", anyStar, strRE "rhost=", ipRE]

/-- Pattern \bsegfault\b|\bsegmentation fault\b -/
def pCR1 : RE :=
  RE.alt (catsRE [RE.wb, strRE "segfault", RE.wb])
         (catsRE [RE.wb, strRE "segmentation fault", RE.wb])

/-- Pattern \bkernel panic\b -/
def pCR2 : RE := catsRE [RE.wb, strRE "kernel panic", RE.wb]

/-- Traceback (most recent call last): , parens escaped in the source -/
def pCR3 : RE := strRE "traceback (most recent call last):"

/-- Pattern \bCRITICAL\b.*\berror\b -/
def pCR4 : RE :=
  catsRE [RE.wb, strRE "critical", RE.wb, anyStar, RE.wb, strRE "error", RE.wb]

/-- service .* (crashed|exited with code \d+) -/
def pCR5 : RE :=
  catsRE [strRE "service ", anyStar, strRE " ",
          RE.alt (strRE "crashed") (catsRE [strRE "exited with code ", dplus])]

/-- DROP .* IN=(?P<iface>\w+) .* SRC=(?P<ip>...) -/
def pSU1 : RE :=
  catsRE [strRE "drop ", anyStar, strRE " in=", wplus, strRE " ", anyStar,
          strRE " src=", ipRE]

/-- Pattern (\b('|\")?\s*or\s+1=1\b)|(\bunion\b.*\bselect\b) -/
def pSU2 : RE :=
  RE.alt (catsRE [RE.wb, optRE (RE.alt (RE.cls (CC.ch '\'')) (RE.cls (CC.ch '"'))),
                  RE.star (RE.cls CC.space), strRE "or", plusRE (RE.cls CC.space),
                  strRE "1=1", RE.wb])
         (catsRE [RE.wb, strRE "union", RE.wb, anyStar, RE.wb, strRE "select", RE.wb])

/-- Pattern (\.\./)\x7b2,\x7d -/
def pSU3 : RE := rep2RE (strRE "../")

/-- Pattern \b403\b|\b401\b|\b404\b .* from (?P<ip>...) -/
def pSU4 : RE :=
  RE.alt (catsRE [RE.wb, strRE "403", RE.wb])
    (RE.alt (catsRE [RE.wb, strRE "401", RE.wb])
      (catsRE [RE.wb, strRE "404", RE.wb, strRE " ", anyStar, strRE " from ", ipRE]))

/-- The registry `COMPILED_PATTERNS`: category -> ordered compiled patterns, in the
insertion (= iteration) order of the `CONFIG["PATTERNS"]` dict. -/
def COMPILED_PATTERNS : List (String × List RE) :=
  [("FAILED_LOGIN", [pFL1, pFL2, pFL3]),
   ("CRASH", [pCR1, pCR2, pCR3, pCR4, pCR5]),
   ("SUSPICIOUS", [pSU1, pSU2, pSU3, pSU4])]

/-! ## Line iteration and stripping -/

/-- Python text-file line iteration: the file content is cut after every
newline; a trailing chunk without a final newline is still yielded as a
line; each yielded line keeps its terminating newline. -/
def splitLines : List Char → List (List Char)
  | [] => []
  | c :: rest =>
    if c = '\n' then ['\n'] :: splitLines rest
    else
      match splitLines rest with
      | [] => [[c]]
      | l :: ls => (c :: l) :: ls

def isSpaceCh (c : Char) : Bool := ccMatch CC.space c

/-- Python `line.strip()`: drop leading and trailing whitespace. -/
def stripChars (l : List Char) : List Char :=
  ((l.dropWhile isSpaceCh).reverse.dropWhile isSpaceCh).reverse

/-! ## Incident classification (the nested loop of the scan functions) -/

/-- The per-line classification loop of `scan_local_file` /
`scan_remote_file`: iterate the registry's categories in order, inside a
category iterate its patterns in order, stop at the first pattern whose
`search` succeeds (the two `break`s). -/
def classify (reg : List (String × List RE)) (line : List Char) :
    Option (String × RE) :=
  reg.findSome? (fun cp => (cp.2.find? (fun p => research p line)).map (fun p => (cp.1, p)))

/-- The registry flattened in traversal order (specification device for the
first-match-wins statement). -/
def flatReg (reg : List (String × List RE)) : List (String × RE) :=
  reg.foldr (fun cp acc => cp.2.map (fun p => (cp.1, p)) ++ acc) []

/-! ## Checkpoints and the incremental tail -/

/-- A checkpoint row: `(offset, mtime)`, default `(0, 0)`. -/
structure Chk where
  offset : Nat
  mtime : Int
deriving DecidableEq, Repr

/-- Lines 336-366 of the source, reading side: compute the resume offset
(`start_offset = old_offset if (mtime >= old_mtime and old_offset <= size)
else 0`), read from it to end of stream splitting into lines, and report
`f.tell()` at end of stream together with the current mtime as the new
checkpoint.  Since `start <= size` in both branches, `f.tell()` at end of
stream is the file size. -/
def tailCycle (content : List Char) (mtimeNow : Int) (old : Chk) :
    List (List Char) × Chk :=
  let size := content.length
  let start := if old.mtime ≤ mtimeNow ∧ old.offset ≤ size then old.offset else 0
  (splitLines (content.drop start), ⟨size, mtimeNow⟩)

/-- Monotone-mtime condition on a sequence of scan cycles: each observed
mtime is at least the previous one. -/
def mtimesMono : Int → List (List Char × Int) → Bool
  | _, [] => true
  | m, d :: rest => decide (m ≤ d.2) && mtimesMono d.2 rest

/-- Repeated tail cycles over a growing file: starting from current content
`cur` and checkpoint `chk`, each step appends a chunk to the file, observes
the new mtime and runs one `tailCycle`; returns the lines of every cycle and
the final checkpoint. -/
def runAppends : List Char → Chk → List (List Char × Int) →
    List (List (List Char)) × Chk
  | _, chk, [] => ([], chk)
  | cur, chk, d :: rest =>
    let c := cur ++ d.1
    let r := tailCycle c d.2 chk
    let rec' := runAppends c r.2 rest
    (r.1 :: rec'.1, rec'.2)

/-- A chunk ends at a line boundary: it is empty or ends with a newline. -/
def lineBoundaryB (l : List Char) : Bool := l.isEmpty || l.getLast? == some '\n'

/-! ## The per-source scan (scan_local_file) -/

/-- One row of the `events` table / CSV (`ts_utc` is wall-clock time, taken
outside the model). -/
structure Event where
  host : String
  path : String
  category : String
  pat : RE
  line : List Char
deriving DecidableEq, Repr

/-- The accumulator of the read loop: `events`, `counts`, `samples`. -/
structure ScanAcc where
  events : List Event
  counts : List (String × Nat)
  samples : List (String × List (String × String))
deriving DecidableEq, Repr

/-- counts = \x7b"FAILED_LOGIN": 0, "CRASH": 0, "SUSPICIOUS": 0\x7d -/
def initCounts : List (String × Nat) :=
  [("FAILED_LOGIN", 0), ("CRASH", 0), ("SUSPICIOUS", 0)]

/-- samples = \x7bk: [] for k in counts.keys()\x7d -/
def initSamples : List (String × List (String × String)) :=
  [("FAILED_LOGIN", []), ("CRASH", []), ("SUSPICIOUS", [])]

/-- Python `counts[category] += 1`; `none` is Python's `KeyError`. -/
def bump : List (String × Nat) → String → Option (List (String × Nat))
  | [], _ => none
  | kv :: rest, key =>
    if kv.1 = key then some ((kv.1, kv.2 + 1) :: rest)
    else (bump rest key).map (fun r => kv :: r)

/-- Python `if len(samples[category]) < 5: samples[category].append((host, path))`;
`none` is Python's `KeyError` on the lookup. -/
def addSample (m : List (String × List (String × String))) (key : String)
    (x : String × String) : Option (List (String × List (String × String)))
  :=
  match m with
  | [] => none
  | kv :: rest =>
    if kv.1 = key then
      some ((kv.1, if kv.2.length < 5 then kv.2 ++ [x] else kv.2) :: rest)
    else (addSample rest key x).map (fun r => kv :: r)

/-- Failures a scan can raise: a `KeyError` on the hard-coded counts/samples
dicts, or a failed event-store append. -/
inductive ScanErr where
  | keyError (cat : String)
  | persistFailure
deriving DecidableEq, Repr

/-- The body of the read loop for one line: classify it; on a match append
the event, bump `counts[category]` and cap-append to `samples[category]`. -/
def processLine (reg : List (String × List RE)) (host path : String)
    (a : ScanAcc) (line : List Char) : Except ScanErr ScanAcc :=
  match classify reg line with
  | none => Except.ok a
  | some cp =>
    match bump a.counts cp.1 with
    | none => Except.error (ScanErr.keyError cp.1)
    | some counts' =>
      match addSample a.samples cp.1 (host, path) with
      | none => Except.error (ScanErr.keyError cp.1)
      | some samples' =>
        Except.ok ⟨a.events ++ [⟨host, path, cp.1, cp.2, stripChars line⟩],
                   counts', samples'⟩

/-- The whole read loop over the new lines. -/
def processLines (reg : List (String × List RE)) (host path : String) :
    ScanAcc → List (List Char) → Except ScanErr ScanAcc
  | a, [] => Except.ok a
  | a, l :: rest =>
    match processLine reg host path a l with
    | Except.ok a' => processLines reg host path a' rest
    | Except.error e => Except.error e

/-- The externally visible state a scan touches for one source: the event
store and this source's checkpoint row. -/
structure Store where
  events : List Event
  chk : Chk
deriving DecidableEq, Repr

/-- What `scan_local_file` returns together with the store it leaves
behind: `len(events), events, counts, samples`. -/
structure ScanOut where
  store : Store
  found : Nat
  events : List Event
  counts : List (String × Nat)
  samples : List (String × List (String × String))
deriving DecidableEq, Repr

/-- Embeds `scan_local_file(conn, filepath)`.  `file` is the stat+read view of the
source: `none` when `os.stat` raises `FileNotFoundError`, otherwise the
content and mtime.  `persistOk` tells whether the event-store append
(`executemany` + `append_csv`) succeeds; a failed append raises, so neither
events nor the checkpoint are written.  `update_checkpoint` runs after the
(possibly skipped) append. -/
def scan_local_file (reg : List (String × List RE)) (path : String)
    (file : Option (List Char × Int)) (persistOk : Bool) (st : Store) :
    Except ScanErr ScanOut :=
  match file with
  | none => Except.ok ⟨st, 0, [], [], []⟩
  | some f =>
    match processLines reg "localhost" path ⟨[], initCounts, initSamples⟩
        (tailCycle f.1 f.2 st.chk).1 with
    | Except.error e => Except.error e
    | Except.ok acc =>
      if acc.events.isEmpty then
        Except.ok ⟨⟨st.events, (tailCycle f.1 f.2 st.chk).2⟩,
                   acc.events.length, acc.events, acc.counts, acc.samples⟩
      else if persistOk then
        Except.ok ⟨⟨st.events ++ acc.events, (tailCycle f.1 f.2 st.chk).2⟩,
                   acc.events.length, acc.events, acc.counts, acc.samples⟩
      else Except.error ScanErr.persistFailure

/-- The per-source slice of `scan_once`: run the scan, and on any exception
    keep the store as it was (the `try/except` around each file). -/
def runScan (reg : List (String × List RE)) (path : String)
    (file : Option (List Char × Int)) (persistOk : Bool) (st : Store) :
    Store × Nat :=
  match scan_local_file reg path file persistOk st with
  | Except.ok out => (out.store, out.found)
  | Except.error _ => (st, 0)

/-! ## Cycle-level sample merging (scan_once) and alerting -/

/-- The merge loop of `scan_once`:
`for s in samples.get(k, []): if len(sample_events[k]) < 5:
sample_events[k].append(s)`. -/
def mergeSamples (cur new : List (String × String)) : List (String × String) :=
  new.foldl (fun acc s => if acc.length < 5 then acc ++ [s] else acc) cur

/-- Config `CONFIG["THRESHOLDS"]`. -/
def THRESHOLDS : List (String × Nat) :=
  [("FAILED_LOGIN", 5), ("CRASH", 1), ("SUSPICIOUS", 3)]

/-- Python `dict.get(k, default)`. -/
def getD (m : List (String × Nat)) (k : String) (d : Nat) : Nat :=
  match m.find? (fun kv => kv.1 == k) with
  | some kv => kv.2
  | none => d

/-- The decision loop of `alert_if_needed`: one body line `(category, count,
threshold)` per entry of `counts` with
`count >= CONFIG["THRESHOLDS"].get(category, 999999)`; the alert fires iff
the list is nonempty. -/
def alert_if_needed (counts : List (String × Nat)) :
    List (String × Nat × Nat) :=
  counts.filterMap (fun kv =>
    let t := getD THRESHOLDS kv.1 999999
    if t ≤ kv.2 then some (kv.1, kv.2, t) else none)

/-- Cycle summaries as `scan_once` builds them: `aggregate_counts` has
exactly the three hard-coded keys. -/
def mkCounts (a b c : Nat) : List (String × Nat) :=
  [("FAILED_LOGIN", a), ("CRASH", b), ("SUSPICIOUS", c)]

/-! ## Lemmas about line splitting -/

lemma splitLines_eq_nil_iff (s : List Char) : splitLines s = [] ↔ s = [] := by
  constructor
  · intro h
    cases s with
    | nil => rfl
    | cons c rest =>
      by_cases hc : c = '\n'
      · simp [splitLines, hc] at h
      · simp only [splitLines, if_neg hc] at h
        cases hr : splitLines rest with
        | nil => rw [hr] at h; simp at h
        | cons l ls => rw [hr] at h; simp at h
  · intro h; subst h; rfl

lemma splitLines_flatten (s : List Char) : (splitLines s).flatten = s := by
  induction s with
  | nil => rfl
  | cons c rest ih =>
    by_cases hc : c = '\n'
    · subst hc; simp [splitLines, ih]
    · simp only [splitLines, if_neg hc]
      cases hr : splitLines rest with
      | nil =>
        have : rest = [] := (splitLines_eq_nil_iff rest).mp hr
        subst this; simp
      | cons l ls =>
        rw [hr] at ih
        simp only [List.flatten_cons] at ih ⊢
        simp [← ih]

lemma lineBoundaryB_cons (c : Char) (a : List Char) (h : a ≠ []) :
    lineBoundaryB (c :: a) = lineBoundaryB a := by
  cases a with
  | nil => exact absurd rfl h
  | cons d t => simp [lineBoundaryB, List.getLast?_cons_cons]

lemma splitLines_append (a b : List Char) (h : lineBoundaryB a = true) :
    splitLines (a ++ b) = splitLines a ++ splitLines b := by
  induction a with
  | nil => simp [splitLines]
  | cons c a' ih =>
    by_cases ha' : a' = []
    · subst ha'
      have hc : c = '\n' := by
        simp [lineBoundaryB, List.getLast?] at h
        exact h
      subst hc
      simp [splitLines]
    · have hb : lineBoundaryB a' = true := by
        rw [lineBoundaryB_cons c a' ha'] at h; exact h
      have ihb := ih hb
      by_cases hc : c = '\n'
      · subst hc; simp [splitLines, ihb]
      · simp only [List.cons_append, splitLines, if_neg hc, List.append_eq]
        cases hr : splitLines a' with
        | nil => exact absurd ((splitLines_eq_nil_iff a').mp hr) ha'
        | cons l ls =>
          rw [ihb, hr]
          simp

lemma splitLines_flatten_of_boundary (ls : List (List Char))
    (h : ∀ l ∈ ls, lineBoundaryB l = true) :
    splitLines ls.flatten = (ls.map splitLines).flatten := by
  induction ls with
  | nil => rfl
  | cons l rest ih =>
    simp only [List.flatten_cons, List.map_cons]
    rw [splitLines_append l rest.flatten (h l (by simp)),
        ih (fun x hx => h x (by simp [hx]))]

/-! ## Lemmas about the tail cycle -/

lemma tailCycle_snd (c : List Char) (mt : Int) (chk : Chk) :
    (tailCycle c mt chk).2 = ⟨c.length, mt⟩ := by
  simp only [tailCycle]

lemma tailCycle_of_cond (c : List Char) (mt : Int) (chk : Chk)
    (h : chk.mtime ≤ mt ∧ chk.offset ≤ c.length) :
    tailCycle c mt chk = (splitLines (c.drop chk.offset), ⟨c.length, mt⟩) := by
  simp only [tailCycle, if_pos h]

lemma tailCycle_of_not_cond (c : List Char) (mt : Int) (chk : Chk)
    (h : ¬(chk.mtime ≤ mt ∧ chk.offset ≤ c.length)) :
    tailCycle c mt chk = (splitLines c, ⟨c.length, mt⟩) := by
  simp only [tailCycle, if_neg h, List.drop_zero]

/-- C1: the resume-offset rule.  With stored checkpoint `(offset, mtime)` and
current metadata `(size, mtime_now)`, the tail reads from the stored offset
exactly under `mtime_now >= mtime` and `offset <= size`; otherwise it reads
the file from byte 0. -/
theorem resume_offset_rule (c : List Char) (mtNow : Int) (chk : Chk) :
    ((chk.mtime ≤ mtNow ∧ chk.offset ≤ c.length) →
      tailCycle c mtNow chk = (splitLines (c.drop chk.offset), ⟨c.length, mtNow⟩))
    ∧ (¬(chk.mtime ≤ mtNow ∧ chk.offset ≤ c.length) →
      tailCycle c mtNow chk = (splitLines c, ⟨c.length, mtNow⟩)) :=
  ⟨tailCycle_of_cond c mtNow chk, tailCycle_of_not_cond c mtNow chk⟩

/-- Witness for C1: a resume in the middle of a grown file, and a
from-scratch re-read after an mtime regression, on concrete data. -/
theorem resume_offset_rule_witness :
    (tailCycle ('a' :: 'b' :: '\n' :: 'c' :: 'd' :: '\n' :: []) 7 ⟨3, 5⟩
      = ([['c', 'd', '\n']], ⟨6, 7⟩))
    ∧ (tailCycle ('x' :: '\n' :: []) 4 ⟨1, 5⟩
      = ([['x', '\n']], ⟨2, 4⟩)) := by
  constructor
  · have h := (resume_offset_rule ('a' :: 'b' :: '\n' :: 'c' :: 'd' :: '\n' :: []) 7 ⟨3, 5⟩).1
      (by constructor <;> decide)
    rw [h]; decide
  · have h := (resume_offset_rule ('x' :: '\n' :: []) 4 ⟨1, 5⟩).2 (by decide)
    rw [h]; decide

/-- C2: rotation recovery.  After a completed cycle that saw `(c1, mt1)`, if
the next cycle sees a smaller size or a smaller mtime, the tail restarts at
offset 0 and reprocesses the full current content. -/
theorem rotation_recovery (c1 c2 : List Char) (mt1 mt2 : Int) (chk : Chk)
    (h : c2.length < c1.length ∨ mt2 < mt1) :
    tailCycle c2 mt2 (tailCycle c1 mt1 chk).2
      = (splitLines c2, ⟨c2.length, mt2⟩) := by
  rw [tailCycle_snd]
  apply tailCycle_of_not_cond
  intro hcond
  rcases h with h | h
  · exact absurd hcond.2 (by simp only [not_le]; exact h)
  · exact absurd hcond.1 (by simp only [not_le]; exact h)

/-- Witness for C2: the file shrinks from 4 bytes to 2 between cycles and is
re-read whole. -/
theorem rotation_recovery_witness :
    tailCycle ('z' :: '\n' :: []) 9
        (tailCycle ('a' :: 'b' :: 'c' :: '\n' :: []) 8 ⟨0, 0⟩).2
      = ([['z', '\n']], ⟨2, 9⟩) := by
  have h := rotation_recovery ('a' :: 'b' :: 'c' :: '\n' :: []) ('z' :: '\n' :: [])
    8 9 ⟨0, 0⟩ (by left; decide)
  rw [h]; decide

/-! ## Repeated cycles over a growing file -/

lemma runAppends_fst (ds : List (List Char × Int)) :
    ∀ (cur : List Char) (m0 : Int), mtimesMono m0 ds = true →
      (runAppends cur ⟨cur.length, m0⟩ ds).1 = ds.map (fun d => splitLines d.1) := by
  induction ds with
  | nil => intro cur m0 _; rfl
  | cons d rest ih =>
    intro cur m0 h
    simp only [mtimesMono, Bool.and_eq_true, decide_eq_true_eq] at h
    have hcyc : tailCycle (cur ++ d.1) d.2 ⟨cur.length, m0⟩
        = (splitLines d.1, ⟨(cur ++ d.1).length, d.2⟩) := by
      rw [tailCycle_of_cond]
      · rw [List.drop_left]
      · exact ⟨h.1, by simp⟩
    simp only [runAppends, hcyc]
    rw [ih (cur ++ d.1) d.2 h.2]
    rfl

lemma flatten_map_splitLines (ls : List (List Char)) :
    ((ls.map splitLines).flatten).flatten = ls.flatten := by
  induction ls with
  | nil => rfl
  | cons l rest ih => simp [splitLines_flatten, ih]

/-- C3 (amended): over any sequence of appends with non-decreasing mtimes,
the bytes yielded across all cycles are exactly the appended bytes, each
consumed once; and when every append ends on a line boundary, the lines
yielded across all cycles are exactly the lines of the final file, each
exactly once.  (Without the boundary condition the per-line statement fails:
see the counterexample.) -/
theorem resume_correctness_amended (m0 : Int) (ds : List (List Char × Int))
    (h : mtimesMono m0 ds = true) :
    (((runAppends [] ⟨0, m0⟩ ds).1).flatten).flatten = (ds.map Prod.fst).flatten
    ∧ (ds.all (fun d => lineBoundaryB d.1) = true →
      ((runAppends [] ⟨0, m0⟩ ds).1).flatten
        = splitLines ((ds.map Prod.fst).flatten)) := by
  have hfst : (runAppends [] ⟨0, m0⟩ ds).1 = ds.map (fun d => splitLines d.1) := by
    have := runAppends_fst ds [] m0 h
    simpa using this
  have hmap : ds.map (fun d => splitLines d.1) = (ds.map Prod.fst).map splitLines := by
    rw [List.map_map]; rfl
  constructor
  · rw [hfst, hmap, flatten_map_splitLines]
  · intro hb
    rw [hfst, hmap, splitLines_flatten_of_boundary]
    intro l hl
    rcases List.mem_map.mp hl with ⟨d, hd, rfl⟩
    exact List.all_eq_true.mp hb d hd

/-- Witness for C3 (amended): two boundary-aligned appends, the two cycles
together yield exactly the two lines of the final file. -/
theorem resume_correctness_amended_witness :
    ((runAppends [] ⟨0, 0⟩ [(('a' :: '\n' :: []), 0), (('b' :: 'c' :: '\n' :: []), 1)]).1).flatten
      = splitLines ('a' :: '\n' :: 'b' :: 'c' :: '\n' :: []) := by
  have h := (resume_correctness_amended 0
    [(('a' :: '\n' :: []), 0), (('b' :: 'c' :: '\n' :: []), 1)] (by decide)).2 (by decide)
  rw [h]; decide

/-- Counterexample to C3 as stated: the first append ends mid-line; sizes
and mtimes never decrease, yet the lines yielded across the cycles
(`"ab"` then `"c\n"`) are not the lines of the final file (`"abc\n"`): the
logical line `abc` is never produced. -/
theorem resume_correctness_counterexample :
    mtimesMono 0 [(('a' :: 'b' :: []), 0), (('c' :: '\n' :: []), 0)] = true
    ∧ ((runAppends [] ⟨0, 0⟩ [(('a' :: 'b' :: []), 0), (('c' :: '\n' :: []), 0)]).1).flatten
      ≠ splitLines ('a' :: 'b' :: 'c' :: '\n' :: []) := by
  constructor
  · decide
  · decide

/-! ## Lemmas about classification -/

lemma find?_map_pair (cat : String) (ps : List RE) (line : List Char) :
    (ps.map (fun p => (cat, p))).find? (fun cp => research cp.2 line)
      = (ps.find? (fun p => research p line)).map (fun p => (cat, p)) := by
  induction ps with
  | nil => rfl
  | cons p rest ih =>
    by_cases hp : research p line
    · simp [List.find?_cons, hp]
    · simp only [List.map_cons, List.find?_cons]
      simp only [hp]
      exact ih

lemma classify_eq_find (reg : List (String × List RE)) (line : List Char) :
    classify reg line = (flatReg reg).find? (fun cp => research cp.2 line) := by
  induction reg with
  | nil => rfl
  | cons cp rest ih =>
    simp only [classify, List.findSome?_cons, flatReg, List.foldr_cons,
      List.find?_append]
    rw [show (List.foldr
        (fun cp acc => List.map (fun p => (cp.1, p)) cp.2 ++ acc) [] rest)
        = flatReg rest from rfl]
    rw [find?_map_pair cp.1 cp.2 line, ← ih]
    cases hf : cp.2.find? (fun p => research p line) with
    | none => simp [classify]
    | some p => simp [classify]

lemma research_of_lower_eq (l l' : List Char)
    (h : lowerLine l = lowerLine l') :
    ∀ r : RE, research r l = research r l' := by
  intro r
  simp only [research, h]

lemma classify_of_lower_eq (reg : List (String × List RE)) (l l' : List Char)
    (h : lowerLine l = lowerLine l') :
    classify reg l = classify reg l' := by
  simp only [classify, research_of_lower_eq l l' h]

/-- C4: classification.  The classifier returns the first entry of the
registry, traversed categories-in-order then patterns-in-order, whose
pattern matches somewhere in the line (hence at most one result, and the
traversal stops at the first hit even when later categories also match);
matching is case-insensitive (lines equal up to case classify identically);
a line matching no pattern yields nothing. -/
theorem classifier_first_match (reg : List (String × List RE))
    (line line' : List Char) :
    classify reg line = (flatReg reg).find? (fun cp => research cp.2 line)
    ∧ (lowerLine line = lowerLine line' →
        classify reg line = classify reg line')
    ∧ ((∀ cp ∈ flatReg reg, research cp.2 line = false) →
        classify reg line = none) := by
  refine ⟨classify_eq_find reg line, classify_of_lower_eq reg line line', ?_⟩
  intro h
  rw [classify_eq_find reg line]
  rw [List.find?_eq_none]
  intro cp hcp
  simp [h cp hcp]

/-- Witness for C4: a line that matches both a FAILED_LOGIN pattern and a
CRASH pattern (in upper case) classifies as the first FAILED_LOGIN pattern,
and identically to its lower-case form. -/
theorem classifier_first_match_witness :
    classify COMPILED_PATTERNS
        "FAILED Password for root from 1.2.3.4: SEGFAULT".data
      = some ("FAILED_LOGIN", pFL1)
    ∧ research pCR1 "FAILED Password for root from 1.2.3.4: SEGFAULT".data = true := by
  constructor
  · have h := (classifier_first_match COMPILED_PATTERNS
      "FAILED Password for root from 1.2.3.4: SEGFAULT".data
      "failed password for root from 1.2.3.4: segfault".data).2.1 (by decide)
    rw [h]
    decide
  · decide

/-! ## Alert evaluation -/

/-- C5 (amended): an entry of the cycle counts is listed in the alert body
exactly when its count reaches the effective threshold, where the effective
threshold of a category is its configured one, or the default `999999` used
by `THRESHOLDS.get(category, 999999)` when the category is absent from the
threshold map.  In particular a configured category triggers exactly at
`count >= threshold` (equal triggers, one below does not), and an
unconfigured category does trigger once its count reaches `999999`. -/
theorem alert_threshold_amended (counts : List (String × Nat)) (cat : String)
    (cnt : Nat) :
    (cat, cnt, getD THRESHOLDS cat 999999) ∈ alert_if_needed counts
      ↔ ((cat, cnt) ∈ counts ∧ getD THRESHOLDS cat 999999 ≤ cnt) := by
  constructor
  · intro h
    rcases List.mem_filterMap.mp h with ⟨kv, hkv, hf⟩
    by_cases ht : getD THRESHOLDS kv.1 999999 ≤ kv.2
    · simp only [alert_if_needed, if_pos ht] at hf
      have h1 : kv.1 = cat := (Prod.mk.injEq _ _ _ _).mp (Option.some.injEq _ _ ▸ hf) |>.1
      have h2 : kv.2 = cnt := by
        have := (Prod.mk.injEq _ _ _ _).mp (Option.some.injEq _ _ ▸ hf) |>.2
        exact ((Prod.mk.injEq _ _ _ _).mp this).1
      constructor
      · rw [← h1, ← h2]; exact hkv
      · rw [← h1, ← h2]; exact ht
    · simp only [alert_if_needed, if_neg ht] at hf
      exact absurd hf (by simp)
  · intro h
    apply List.mem_filterMap.mpr
    refine ⟨(cat, cnt), h.1, ?_⟩
    simp only [alert_if_needed, if_pos h.2]

/-- Counterexample to C5 as stated: `"PORT_SCAN"` is absent from the
threshold map, yet a cycle count of `999999` for it is listed in the alert
body (the code substitutes the default threshold `999999` for absent
categories, it does not exempt them). -/
theorem alert_threshold_counterexample :
    THRESHOLDS.find? (fun kv => kv.1 == "PORT_SCAN") = none
    ∧ alert_if_needed [("PORT_SCAN", 999999)]
      = [("PORT_SCAN", 999999, 999999)] := by
  constructor
  · decide
  · decide

/-- Witness for C5 (amended): `FAILED_LOGIN` with count 5 meets its
threshold 5 and is listed; with count 4 it is not. -/
theorem alert_threshold_amended_witness :
    ("FAILED_LOGIN", 5, 5) ∈ alert_if_needed (mkCounts 5 0 0)
    ∧ ¬("FAILED_LOGIN", 4, 5) ∈ alert_if_needed (mkCounts 4 0 0) := by
  constructor
  · exact (alert_threshold_amended (mkCounts 5 0 0) "FAILED_LOGIN" 5).mpr
      (by constructor
          · decide
          · decide)
  · intro h
    have := (alert_threshold_amended (mkCounts 4 0 0) "FAILED_LOGIN" 4).mp
      (by
        have he : getD THRESHOLDS "FAILED_LOGIN" 999999 = 5 := by decide
        rw [he]
        exact h)
    have h5 : getD THRESHOLDS "FAILED_LOGIN" 999999 = 5 := by decide
    rw [h5] at this
    exact absurd this.2 (by decide)

/-! ## Lemmas about the per-source scan -/

lemma scan_ok_chk (reg : List (String × List RE)) (path : String)
    (f : List Char × Int) (persistOk : Bool) (st : Store) (out : ScanOut)
    (h : scan_local_file reg path (some f) persistOk st = Except.ok out) :
    out.store.chk = ⟨f.1.length, f.2⟩ := by
  simp only [scan_local_file] at h
  cases hp : processLines reg "localhost" path ⟨[], initCounts, initSamples⟩
      (tailCycle f.1 f.2 st.chk).1 with
  | error e => rw [hp] at h; exact absurd h (by simp)
  | ok acc =>
    rw [hp] at h
    by_cases he : acc.events.isEmpty
    · simp only [he, if_true, Except.ok.injEq] at h
      subst h
      simp [tailCycle_snd]
    · simp only [he, if_false, Bool.false_eq_true] at h
      by_cases hk : persistOk
      · simp only [hk, if_true, Except.ok.injEq] at h
        subst h
        simp [tailCycle_snd]
      · simp only [hk, if_false, Bool.false_eq_true] at h
        exact absurd h (by simp)

/-- C6: persistence ordering.  Whenever a scan completes and its checkpoint
is (re)written, the produced events are exactly what was appended to the
event store; if the event-store append fails, a scan that produced events
raises instead of completing, and the caller's state (including the
checkpoint) is left untouched. -/
theorem persistence_ordering (reg : List (String × List RE)) (path : String)
    (file : Option (List Char × Int)) (persistOk : Bool) (st : Store) :
    (∀ out, scan_local_file reg path file persistOk st = Except.ok out →
      out.store.events = st.events ++ out.events)
    ∧ (persistOk = false →
      ∀ out, scan_local_file reg path file persistOk st = Except.ok out →
        out.events = [])
    ∧ (∀ e, scan_local_file reg path file persistOk st = Except.error e →
      runScan reg path file persistOk st = (st, 0)) := by
  refine ⟨?_, ?_, ?_⟩
  · intro out hout
    cases file with
    | none =>
      simp only [scan_local_file, Except.ok.injEq] at hout
      subst hout
      simp
    | some f =>
      simp only [scan_local_file] at hout
      cases hp : processLines reg "localhost" path ⟨[], initCounts, initSamples⟩
          (tailCycle f.1 f.2 st.chk).1 with
      | error e => rw [hp] at hout; exact absurd hout (by simp)
      | ok acc =>
        rw [hp] at hout
        by_cases he : acc.events.isEmpty
        · simp only [he, if_true, Except.ok.injEq] at hout
          subst hout
          simp [List.isEmpty_iff.mp he]
        · simp only [he, if_false, Bool.false_eq_true] at hout
          by_cases hk : persistOk
          · simp only [hk, if_true, Except.ok.injEq] at hout
            subst hout
            simp
          · simp only [hk, if_false, Bool.false_eq_true] at hout
            exact absurd hout (by simp)
  · intro hpk out hout
    cases file with
    | none =>
      simp only [scan_local_file, Except.ok.injEq] at hout
      subst hout
      rfl
    | some f =>
      simp only [scan_local_file] at hout
      cases hp : processLines reg "localhost" path ⟨[], initCounts, initSamples⟩
          (tailCycle f.1 f.2 st.chk).1 with
      | error e => rw [hp] at hout; exact absurd hout (by simp)
      | ok acc =>
        rw [hp] at hout
        by_cases he : acc.events.isEmpty
        · simp only [he, if_true, Except.ok.injEq] at hout
          subst hout
          exact List.isEmpty_iff.mp he
        · simp only [he, if_false, Bool.false_eq_true, hpk] at hout
          exact absurd hout (by simp)
  · intro e he
    simp only [runScan, he]

/-- Witness for C6: with a failing event store and a file holding one
matching line, the scan raises and the per-source state (event store and
checkpoint) is exactly what it was. -/
theorem persistence_ordering_witness :
    runScan COMPILED_PATTERNS "/var/log/auth.log"
        (some ("Invalid user a from 1.2.3.4\n".data, 5)) false
        ⟨[], ⟨0, 0⟩⟩
      = (⟨[], ⟨0, 0⟩⟩, 0) := by
  have h := (persistence_ordering COMPILED_PATTERNS "/var/log/auth.log"
    (some ("Invalid user a from 1.2.3.4\n".data, 5)) false ⟨[], ⟨0, 0⟩⟩).2.2
    ScanErr.persistFailure
  exact h rfl

/-- C7: an unavailable source (stat failure) is a skip: zero events, zero
counts, zero samples, the stored state (event store and checkpoint value)
untouched, and the cycle treats it as a success, not an error. -/
theorem unavailable_source_skip (reg : List (String × List RE)) (path : String)
    (persistOk : Bool) (st : Store) :
    scan_local_file reg path none persistOk st = Except.ok ⟨st, 0, [], [], []⟩
    ∧ runScan reg path none persistOk st = (st, 0) := by
  constructor
  · rfl
  · rfl

/-- C8: idempotent no-op.  After any completed scan of `(content, mtime)`,
scanning the same content and mtime again reads zero new lines, produces
zero events, and returns the store (checkpoint value included) unchanged. -/
theorem idempotent_noop (reg : List (String × List RE)) (path : String)
    (c : List Char) (mt : Int) (p1 p2 : Bool) (st : Store) (out : ScanOut)
    (h : scan_local_file reg path (some (c, mt)) p1 st = Except.ok out) :
    scan_local_file reg path (some (c, mt)) p2 out.store
      = Except.ok ⟨out.store, 0, [], initCounts, initSamples⟩
    ∧ (tailCycle c mt out.store.chk).1 = [] := by
  have hchk : out.store.chk = ⟨c.length, mt⟩ :=
    scan_ok_chk reg path (c, mt) p1 st out h
  have htail : tailCycle c mt out.store.chk = ([], ⟨c.length, mt⟩) := by
    rw [hchk, tailCycle_of_cond c mt ⟨c.length, mt⟩ ⟨le_refl mt, le_refl c.length⟩]
    simp [List.drop_length]
    rfl
  constructor
  · simp only [scan_local_file, htail]
    simp only [processLines]
    have hstore : (⟨out.store.events, (⟨c.length, mt⟩ : Chk)⟩ : Store) = out.store := by
      rw [← hchk]
    simp [hstore]
  · rw [htail]

/-- Witness for C8: a first scan of a 2-byte file completes; re-scanning the
unchanged file yields zero lines, zero events and the same store. -/
theorem idempotent_noop_witness :
    scan_local_file COMPILED_PATTERNS "/t.log" (some (('x' :: '\n' :: []), 1))
        true (⟨[], ⟨2, 1⟩⟩ : Store)
      = Except.ok ⟨⟨[], ⟨2, 1⟩⟩, 0, [], initCounts, initSamples⟩ := by
  have h0 : scan_local_file COMPILED_PATTERNS "/t.log"
      (some (('x' :: '\n' :: []), 1)) true (⟨[], ⟨0, 0⟩⟩ : Store)
      = Except.ok ⟨⟨[], ⟨2, 1⟩⟩, 0, [], initCounts, initSamples⟩ := rfl
  exact (idempotent_noop COMPILED_PATTERNS "/t.log" ('x' :: '\n' :: []) 1 true
    true (⟨[], ⟨0, 0⟩⟩ : Store)
    ⟨⟨[], ⟨2, 1⟩⟩, 0, [], initCounts, initSamples⟩ h0).1

/-! ## Bounded sampling -/

lemma addSample_bounded (k : String) (x : String × String) :
    ∀ (m m' : List (String × List (String × String))),
      (∀ kv ∈ m, kv.2.length ≤ 5) → addSample m k x = some m' →
      ∀ kv ∈ m', kv.2.length ≤ 5 := by
  intro m
  induction m with
  | nil => intro m' _ h; simp [addSample] at h
  | cons kv0 rest ih =>
    intro m' hb h
    by_cases hk : kv0.1 = k
    · simp only [addSample, if_pos hk, Option.some.injEq] at h
      subst h
      intro kv hkv
      rcases List.mem_cons.mp hkv with h1 | h1
      · subst h1
        by_cases hl : kv0.2.length < 5
        · simp only [if_pos hl]
          simp only [List.length_append, List.length_cons, List.length_nil]
          omega
        · simp only [if_neg hl]
          exact hb kv0 (by simp)
      · exact hb kv (List.mem_cons.mpr (Or.inr h1))
    · simp only [addSample, if_neg hk] at h
      cases hr : addSample rest k x with
      | none => rw [hr] at h; simp at h
      | some r =>
        rw [hr] at h
        simp only [Option.map_some', Option.some.injEq] at h
        subst h
        intro kv hkv
        rcases List.mem_cons.mp hkv with h1 | h1
        · subst h1; exact hb _ (List.mem_cons_self _ _)
        · exact ih r (fun v hv => hb v (List.mem_cons.mpr (Or.inr hv))) hr kv h1

lemma processLine_samples_bounded (reg : List (String × List RE))
    (host path : String) (a a' : ScanAcc) (line : List Char)
    (hb : ∀ kv ∈ a.samples, kv.2.length ≤ 5)
    (h : processLine reg host path a line = Except.ok a') :
    ∀ kv ∈ a'.samples, kv.2.length ≤ 5 := by
  cases hc : classify reg line with
  | none =>
    simp only [processLine, hc, Except.ok.injEq] at h
    subst h
    exact hb
  | some cp =>
    simp only [processLine, hc] at h
    cases hbm : bump a.counts cp.1 with
    | none => simp only [hbm] at h; exact absurd h (by simp)
    | some counts' =>
      simp only [hbm] at h
      cases hs : addSample a.samples cp.1 (host, path) with
      | none => simp only [hs] at h; exact absurd h (by simp)
      | some samples' =>
        simp only [hs, Except.ok.injEq] at h
        subst h
        exact addSample_bounded cp.1 (host, path) a.samples samples' hb hs

lemma processLines_samples_bounded (reg : List (String × List RE))
    (host path : String) (lines : List (List Char)) :
    ∀ (a a' : ScanAcc), (∀ kv ∈ a.samples, kv.2.length ≤ 5) →
      processLines reg host path a lines = Except.ok a' →
      ∀ kv ∈ a'.samples, kv.2.length ≤ 5 := by
  induction lines with
  | nil =>
    intro a a' hb h
    simp only [processLines, Except.ok.injEq] at h
    subst h; exact hb
  | cons l rest ih =>
    intro a a' hb h
    simp only [processLines] at h
    cases hl : processLine reg host path a l with
    | error e => rw [hl] at h; simp at h
    | ok a1 =>
      rw [hl] at h
      exact ih a1 a'
        (processLine_samples_bounded reg host path a a1 l hb hl) h

lemma mergeSamples_eq_take (new : List (String × String)) :
    ∀ cur : List (String × String), cur.length ≤ 5 →
      mergeSamples cur new = (cur ++ new).take 5 := by
  induction new with
  | nil =>
    intro cur h
    simp only [mergeSamples, List.foldl_nil, List.append_nil]
    rw [List.take_of_length_le h]
  | cons a new' ih =>
    intro cur h
    by_cases hl : cur.length < 5
    · have step : mergeSamples cur (a :: new') = mergeSamples (cur ++ [a]) new' := by
        simp only [mergeSamples, List.foldl_cons, if_pos hl]
      rw [step, ih (cur ++ [a]) (by simp; omega)]
      simp
    · have h5 : cur.length = 5 := by omega
      have step : mergeSamples cur (a :: new') = mergeSamples cur new' := by
        simp only [mergeSamples, List.foldl_cons, if_neg hl]
      rw [step, ih cur h]
      rw [show (5 : Nat) = cur.length from h5.symm, List.take_left, List.take_left]

/-- C9 (amended): sample lists are capped at 5 everywhere: any list in the
per-file `samples` dict of a completed scan has at most 5 entries, and the
`scan_once` merge of a source's samples into the cycle-level list keeps the
first 5 entries, in encounter order, of the concatenation (so it stays
within the bound).  The entries are one per matching line — the `(host,
path)` of that line's source — not one per distinct source. -/
theorem bounded_sampling_amended (reg : List (String × List RE)) (path : String)
    (file : Option (List Char × Int)) (persistOk : Bool) (st : Store) :
    (∀ out, scan_local_file reg path file persistOk st = Except.ok out →
      ∀ kv ∈ out.samples, kv.2.length ≤ 5)
    ∧ (∀ cur new : List (String × String), cur.length ≤ 5 →
      mergeSamples cur new = (cur ++ new).take 5
      ∧ (mergeSamples cur new).length ≤ 5) := by
  constructor
  · intro out hout
    cases file with
    | none =>
      simp only [scan_local_file, Except.ok.injEq] at hout
      subst hout
      simp
    | some f =>
      simp only [scan_local_file] at hout
      cases hp : processLines reg "localhost" path ⟨[], initCounts, initSamples⟩
          (tailCycle f.1 f.2 st.chk).1 with
      | error e => rw [hp] at hout; exact absurd hout (by simp)
      | ok acc =>
        have hacc : ∀ kv ∈ acc.samples, kv.2.length ≤ 5 :=
          processLines_samples_bounded reg "localhost" path
            (tailCycle f.1 f.2 st.chk).1 ⟨[], initCounts, initSamples⟩ acc
            (by intro kv hkv; fin_cases hkv <;> simp) hp
        rw [hp] at hout
        by_cases he : acc.events.isEmpty
        · simp only [he, if_true, Except.ok.injEq] at hout
          subst hout
          exact hacc
        · simp only [he, if_false, Bool.false_eq_true] at hout
          by_cases hk : persistOk
          · simp only [hk, if_true, Except.ok.injEq] at hout
            subst hout
            exact hacc
          · simp only [hk, if_false, Bool.false_eq_true] at hout
            exact absurd hout (by simp)
  · intro cur new h
    have he := mergeSamples_eq_take new cur h
    refine ⟨he, ?_⟩
    rw [he]
    calc ((cur ++ new).take 5).length ≤ 5 := by
          rw [List.length_take]; omega

/-- Witness for C9 (amended): merging 5 fresh entries into a 1-entry cycle
list keeps the first 5 of the concatenation. -/
theorem bounded_sampling_amended_witness :
    mergeSamples [("a", "x")]
        [("b", "y"), ("c", "z"), ("d", "w"), ("e", "v"), ("f", "u")]
      = ([("a", "x")] ++
          [("b", "y"), ("c", "z"), ("d", "w"), ("e", "v"), ("f", "u")]).take 5
    ∧ (mergeSamples [("a", "x")]
        [("b", "y"), ("c", "z"), ("d", "w"), ("e", "v"), ("f", "u")]).length ≤ 5 :=
  (bounded_sampling_amended COMPILED_PATTERNS "/p" none true ⟨[], ⟨0, 0⟩⟩).2
    [("a", "x")] [("b", "y"), ("c", "z"), ("d", "w"), ("e", "v"), ("f", "u")]
    (by decide)

/-- The samples list a scan result holds for one category (empty when the
scan failed or the category is absent). -/
def scanSamplesFor (r : Except ScanErr ScanOut) (k : String) :
    List (String × String) :=
  match r with
  | Except.ok out =>
    match out.samples.find? (fun kv => kv.1 == k) with
    | some kv => kv.2
    | none => []
  | Except.error _ => []

/-- The count a scan result holds for one category. -/
def scanCountFor (r : Except ScanErr ScanOut) (k : String) : Nat :=
  match r with
  | Except.ok out =>
    match out.counts.find? (fun kv => kv.1 == k) with
    | some kv => kv.2
    | none => 0
  | Except.error _ => 0

/-- Modelled from the spec: the sampling policy the claim states — "for
each category, retain only the first 5 (host, path) pairs encountered
across the whole cycle (not per source) that produced at least one matching
line".  Input: the cycle's sources in encounter order with their per-cycle
match count for the category; a qualifying pair is listed once. -/
def claimedCycleSamples (sources : List ((String × String) × Nat)) :
    List (String × String) :=
  ((sources.filter (fun s => decide (0 < s.2))).map Prod.fst).take 5

/-- Counterexample to C9 as stated: a cycle over the single source
`("localhost", "/var/log/auth.log")` whose file gained two FAILED_LOGIN
lines.  The code's cycle-level sample list for FAILED_LOGIN carries the
pair twice (one entry per matching line), whereas the claimed list of
"the first 5 pairs that produced at least one matching line" contains the
single qualifying pair once. -/
theorem bounded_sampling_counterexample :
    scanCountFor
        (scan_local_file COMPILED_PATTERNS "/var/log/auth.log"
          (some ("Invalid user a from 1.2.3.4\nInvalid user b from 1.2.3.4\n".data, 1))
          true ⟨[], ⟨0, 0⟩⟩) "FAILED_LOGIN" = 2
    ∧ mergeSamples []
        (scanSamplesFor
          (scan_local_file COMPILED_PATTERNS "/var/log/auth.log"
            (some ("Invalid user a from 1.2.3.4\nInvalid user b from 1.2.3.4\n".data, 1))
            true ⟨[], ⟨0, 0⟩⟩) "FAILED_LOGIN")
      = [("localhost", "/var/log/auth.log"), ("localhost", "/var/log/auth.log")]
    ∧ claimedCycleSamples [(("localhost", "/var/log/auth.log"), 2)]
      = [("localhost", "/var/log/auth.log")]
    ∧ mergeSamples []
        (scanSamplesFor
          (scan_local_file COMPILED_PATTERNS "/var/log/auth.log"
            (some ("Invalid user a from 1.2.3.4\nInvalid user b from 1.2.3.4\n".data, 1))
            true ⟨[], ⟨0, 0⟩⟩) "FAILED_LOGIN")
      ≠ claimedCycleSamples [(("localhost", "/var/log/auth.log"), 2)] := by
  refine ⟨rfl, rfl, rfl, ?_⟩
  intro h
  have h2 : ([("localhost", "/var/log/auth.log"), ("localhost", "/var/log/auth.log")]
      : List (String × String))
      = [("localhost", "/var/log/auth.log")] := by
    rw [show (mergeSamples []
        (scanSamplesFor
          (scan_local_file COMPILED_PATTERNS "/var/log/auth.log"
            (some ("Invalid user a from 1.2.3.4\nInvalid user b from 1.2.3.4\n".data, 1))
            true ⟨[], ⟨0, 0⟩⟩) "FAILED_LOGIN"))
      = [("localhost", "/var/log/auth.log"), ("localhost", "/var/log/auth.log")] from rfl] at h
    rw [show claimedCycleSamples [(("localhost", "/var/log/auth.log"), 2)]
      = [("localhost", "/var/log/auth.log")] from rfl] at h
    exact h
  simp at h2

/-! ## Hard-coded category keys -/

lemma mem_fst_of_mem_flatReg (reg : List (String × List RE))
    (cp : String × RE) (h : cp ∈ flatReg reg) : cp.1 ∈ reg.map Prod.fst := by
  induction reg with
  | nil => simp [flatReg] at h
  | cons e rest ih =>
    simp only [flatReg, List.foldr_cons] at h
    rcases List.mem_append.mp h with h1 | h1
    · rcases List.mem_map.mp h1 with ⟨p, _, hpe⟩
      subst hpe
      simp
    · simp only [List.map_cons, List.mem_cons]
      exact Or.inr (ih h1)

lemma classify_cat_mem (reg : List (String × List RE)) (line : List Char)
    (cp : String × RE) (h : classify reg line = some cp) :
    cp.1 ∈ reg.map Prod.fst := by
  rw [classify_eq_find] at h
  exact mem_fst_of_mem_flatReg reg cp (List.mem_of_find?_eq_some h)

lemma bump_some_of_mem (k : String) :
    ∀ m : List (String × Nat), k ∈ m.map Prod.fst →
      ∃ m', bump m k = some m' ∧ m'.map Prod.fst = m.map Prod.fst := by
  intro m
  induction m with
  | nil => intro h; simp at h
  | cons kv rest ih =>
    intro h
    by_cases hk : kv.1 = k
    · exact ⟨(kv.1, kv.2 + 1) :: rest, by simp [bump, hk], by simp⟩
    · have hmem : k ∈ rest.map Prod.fst := by
        simp only [List.map_cons, List.mem_cons] at h
        rcases h with h1 | h1
        · exact absurd h1.symm hk
        · exact h1
      rcases ih hmem with ⟨r, hr, hkeys⟩
      exact ⟨kv :: r, by simp [bump, hk, hr], by simp [hkeys]⟩

lemma bump_none_of_not_mem (k : String) :
    ∀ m : List (String × Nat), k ∉ m.map Prod.fst → bump m k = none := by
  intro m
  induction m with
  | nil => intro _; rfl
  | cons kv rest ih =>
    intro h
    have hk : ¬kv.1 = k := by
      intro he
      exact h (by simp [he])
    have hrest : k ∉ rest.map Prod.fst := by
      intro hmem
      exact h (by simp [hmem])
    simp [bump, hk, ih hrest]

lemma addSample_some_of_mem (k : String) (x : String × String) :
    ∀ m : List (String × List (String × String)), k ∈ m.map Prod.fst →
      ∃ m', addSample m k x = some m'
        ∧ m'.map Prod.fst = m.map Prod.fst := by
  intro m
  induction m with
  | nil => intro h; simp at h
  | cons kv rest ih =>
    intro h
    by_cases hk : kv.1 = k
    · refine ⟨(kv.1, if kv.2.length < 5 then kv.2 ++ [x] else kv.2) :: rest,
        by simp [addSample, hk], by simp⟩
    · have hmem : k ∈ rest.map Prod.fst := by
        simp only [List.map_cons, List.mem_cons] at h
        rcases h with h1 | h1
        · exact absurd h1.symm hk
        · exact h1
      rcases ih hmem with ⟨r, hr, hkeys⟩
      exact ⟨kv :: r, by simp [addSample, hk, hr], by simp [hkeys]⟩

lemma processLines_total (reg : List (String × List RE)) (host path : String)
    (lines : List (List Char)) :
    ∀ a : ScanAcc,
      (∀ k ∈ reg.map Prod.fst, k ∈ a.counts.map Prod.fst) →
      (∀ k ∈ reg.map Prod.fst, k ∈ a.samples.map Prod.fst) →
      ∃ a', processLines reg host path a lines = Except.ok a'
        ∧ a'.counts.map Prod.fst = a.counts.map Prod.fst
        ∧ a'.samples.map Prod.fst = a.samples.map Prod.fst := by
  induction lines with
  | nil => intro a _ _; exact ⟨a, rfl, rfl, rfl⟩
  | cons l rest ih =>
    intro a hc hs
    cases hcl : classify reg l with
    | none =>
      have hstep : processLine reg host path a l = Except.ok a := by
        simp [processLine, hcl]
      rcases ih a hc hs with ⟨a', ha', hk1, hk2⟩
      exact ⟨a', by simp [processLines, hstep, ha'], hk1, hk2⟩
    | some cp =>
      have hcmem : cp.1 ∈ a.counts.map Prod.fst :=
        hc cp.1 (classify_cat_mem reg l cp hcl)
      have hsmem : cp.1 ∈ a.samples.map Prod.fst :=
        hs cp.1 (classify_cat_mem reg l cp hcl)
      rcases bump_some_of_mem cp.1 a.counts hcmem with ⟨counts', hb, hbk⟩
      rcases addSample_some_of_mem cp.1 (host, path) a.samples hsmem
        with ⟨samples', hadd, hak⟩
      have hstep : processLine reg host path a l
          = Except.ok ⟨a.events ++ [⟨host, path, cp.1, cp.2, stripChars l⟩],
              counts', samples'⟩ := by
        simp [processLine, hcl, hb, hadd]
      rcases ih ⟨a.events ++ [⟨host, path, cp.1, cp.2, stripChars l⟩],
          counts', samples'⟩ (by intro k hk; rw [hbk]; exact hc k hk)
          (by intro k hk; rw [hak]; exact hs k hk) with ⟨a', ha', hk1, hk2⟩
      refine ⟨a', by simp [processLines, hstep, ha'], ?_, ?_⟩
      · rw [hk1]; exact hbk
      · rw [hk2]; exact hak

/-- C10: the scan's counts/samples dictionaries fix the category set.  With
the configured registry (whose categories are exactly FAILED_LOGIN, CRASH
and SUSPICIOUS, the hard-coded keys of the dictionaries) a scan never
raises a `KeyError`; but for any registry, a line whose winning
classification is a category missing from the counts dictionary makes the
per-line step of the scan raise `KeyError` for that category. -/
theorem fixed_category_keys :
    (∀ (path : String) (file : Option (List Char × Int)) (persistOk : Bool)
      (st : Store) (catErr : String),
      scan_local_file COMPILED_PATTERNS path file persistOk st
        ≠ Except.error (ScanErr.keyError catErr))
    ∧ (∀ (reg : List (String × List RE)) (host path : String) (a : ScanAcc)
      (line : List Char) (cp : String × RE),
      classify reg line = some cp →
      cp.1 ∉ a.counts.map Prod.fst →
      processLine reg host path a line
        = Except.error (ScanErr.keyError cp.1)) := by
  constructor
  · intro path file persistOk st catErr h
    cases file with
    | none => simp [scan_local_file] at h
    | some f =>
      have hkeys : COMPILED_PATTERNS.map Prod.fst
          = ["FAILED_LOGIN", "CRASH", "SUSPICIOUS"] := rfl
      rcases processLines_total COMPILED_PATTERNS "localhost" path
          (tailCycle f.1 f.2 st.chk).1 ⟨[], initCounts, initSamples⟩
          (by rw [hkeys]; intro k hk; simpa [initCounts] using hk)
          (by rw [hkeys]; intro k hk; simpa [initSamples] using hk)
        with ⟨acc, hacc, _, _⟩
      simp only [scan_local_file, hacc] at h
      by_cases he : acc.events.isEmpty
      · simp [he] at h
      · simp only [he, if_false, Bool.false_eq_true] at h
        by_cases hk : persistOk
        · simp [hk] at h
        · simp only [hk, if_false, Bool.false_eq_true, Except.error.injEq] at h
          exact ScanErr.noConfusion h
  · intro reg host path a line cp hcl hnot
    simp [processLine, hcl, bump_none_of_not_mem cp.1 a.counts hnot]

/-- Witness for C10: extending the registry with a fourth category
`PORT_SCAN` and classifying a line that matches only it raises
`KeyError("PORT_SCAN")` in the per-line step, and the whole scan of a file
holding that line fails the same way. -/
theorem fixed_category_keys_witness :
    processLine (COMPILED_PATTERNS ++ [("PORT_SCAN", [strRE "port scan"])])
        "localhost" "/p" ⟨[], initCounts, initSamples⟩
        "port scan detected\n".data
      = Except.error (ScanErr.keyError "PORT_SCAN")
    ∧ scan_local_file (COMPILED_PATTERNS ++ [("PORT_SCAN", [strRE "port scan"])])
        "/p" (some ("port scan detected\n".data, 1)) true ⟨[], ⟨0, 0⟩⟩
      = Except.error (ScanErr.keyError "PORT_SCAN") := by
  constructor
  · exact fixed_category_keys.2
      (COMPILED_PATTERNS ++ [("PORT_SCAN", [strRE "port scan"])])
      "localhost" "/p" ⟨[], initCounts, initSamples⟩
      "port scan detected\n".data ("PORT_SCAN", strRE "port scan")
      (by decide) (by decide)
  · rfl
